import Mathlib

/-!
Shallow embedding of the uhyve subsystem of hermit-caves (a user-space
hypervisor for the HermitCore unikernel) together with proofs about its
text formats, hypercall dispatch, guest-memory layout, boot page tables
and checkpoint handling.

Conventions of the embedding:
* Rust strings are modelled as `List Char`; byte strings as `List Char`
  as well (all inputs of interest are ASCII).
* Rust machine integers are modelled as `Nat` (unsigned) or `Int`
  (signed) with explicit range checks / reductions modulo `2 ^ w` where
  the width matters.
* Fallible Rust functions returning `Result<T>` are modelled as
  `Except Error T`; `Option` models Rust `Option`.
* Host side effects (file system, KVM ioctls, the random generator) are
  modelled as explicit oracle parameters.
-/

namespace Hermit

/-- Error kinds of `hermit::error::Error`.
Modelled from the spec: `src/hermit/error.rs` is not among the extracted
sources; §7 of the spec enumerates the error kinds carried end-to-end.
Payloads are elided except for `Protocol`, which carries its diagnostic
string (used by the exit-reason dispatch). -/
inductive Error where
  | InvalidFile
  | NotEnoughMemory
  | KernelNotLoaded
  | IOCTL
  | TranslationFault
  | Protocol (msg : String)
  | KVMDebug
  | NetworkInterface
  | IRQFD
  | CAPIRQFD
  | NoCheckpointFile
  | InvalidCheckpoint
  | WriteCheckpoint
  | MigrationConnection
  | MigrationStream
  | UnsupportedMigrationType
  | VCPUStatesNotInitialized
  | ThreadError
  | MissingFrequency
  | ParseMemory
  deriving DecidableEq, Repr

/-! ### Character and digit utilities -/

/-- Value of a decimal digit character (`c as u32 - '0' as u32`). -/
def digitVal (c : Char) : Nat := c.toNat - 48

/-- `char::is_numeric` of the Rust standard library, restricted to the
ASCII range actually reachable from the inputs of `parse_mem` (on ASCII,
`is_numeric` holds exactly for the digits `0`-`9`). -/
def isNumericChar (c : Char) : Bool := c.isDigit

/-- Rust `char::is_digit(16)`: an ASCII hexadecimal digit. -/
def isHexDigitRust (c : Char) : Bool :=
  c.isDigit || ('a' ≤ c && c ≤ 'f') || ('A' ≤ c && c ≤ 'F')

/-- Value of a hexadecimal digit character, both cases. -/
def hexDigitVal (c : Char) : Nat :=
  if c.isDigit then c.toNat - 48
  else if 'a' ≤ c && c ≤ 'f' then c.toNat - 87
  else c.toNat - 55

/-- The character for the decimal digit `d` (for `d < 10`). -/
def decDigitChar (d : Nat) : Char :=
  (['0', '1', '2', '3', '4', '5', '6', '7', '8', '9']).getD d '9'

/-- The character Rust's lowercase hex formatting uses for digit `d`. -/
def hexDigitChar (d : Nat) : Char :=
  if d < 10 then decDigitChar d
  else (['a', 'b', 'c', 'd', 'e', 'f']).getD (d - 10) 'f'

/-- Digits of `n` in base 10, least significant first, driven by fuel
(any fuel `≥ n` is exact). -/
def natToDecAux : Nat → Nat → List Char
  | 0, _ => []
  | fuel + 1, n => if n = 0 then [] else decDigitChar (n % 10) :: natToDecAux fuel (n / 10)

/-- Rust `format!("{}", n)` for an unsigned integer `n`. -/
def natToDec (n : Nat) : List Char :=
  if n = 0 then ['0'] else (natToDecAux (n + 1) n).reverse

/-- Digits of `n` in base 16, least significant first, driven by fuel. -/
def natToHexAux : Nat → Nat → List Char
  | 0, _ => []
  | fuel + 1, n => if n = 0 then [] else hexDigitChar (n % 16) :: natToHexAux fuel (n / 16)

/-- Rust `format!("{:x}", n)` for an unsigned integer `n` (lowercase). -/
def natToHex (n : Nat) : List Char :=
  if n = 0 then ['0'] else (natToHexAux (n + 1) n).reverse

/-- Numeric value of a digit list, least significant digit first, in
base `b` with digit values given by `dv`. -/
def valLSB (dv : Char → Nat) (b : Nat) : List Char → Nat
  | [] => 0
  | c :: l => dv c + b * valLSB dv b l

/-- Core of Rust's `from_str` / `from_str_radix` for unsigned integers in
base 10: a non-empty all-digit string whose value fits below `bound`
(the checked accumulation of Rust fails exactly when the value of the
digit string reaches the type's upper bound). -/
def parseNatCore (bound : Nat) (cs : List Char) : Option Nat :=
  if !cs.isEmpty && cs.all Char.isDigit then
    let v := cs.foldl (fun a c => 10 * a + digitVal c) 0
    if v < bound then some v else none
  else none

/-- Core of `from_str_radix(_, 16)` for unsigned integers. -/
def parseHexCore (bound : Nat) (cs : List Char) : Option Nat :=
  if !cs.isEmpty && cs.all isHexDigitRust then
    let v := cs.foldl (fun a c => 16 * a + hexDigitVal c) 0
    if v < bound then some v else none
  else none

/-- Rust `str::parse::<u64>` (an optional leading `+` is accepted). -/
def parseU64 (cs : List Char) : Option Nat :=
  match cs with
  | '+' :: rest => parseNatCore (2 ^ 64) rest
  | _ => parseNatCore (2 ^ 64) cs

/-- Rust `str::parse::<u32>`. -/
def parseU32 (cs : List Char) : Option Nat :=
  match cs with
  | '+' :: rest => parseNatCore (2 ^ 32) rest
  | _ => parseNatCore (2 ^ 32) cs

/-- Rust `u64::from_str_radix(_, 16)`. -/
def parseU64Hex (cs : List Char) : Option Nat :=
  match cs with
  | '+' :: rest => parseHexCore (2 ^ 64) rest
  | _ => parseHexCore (2 ^ 64) cs

/-- Rust `isize::from_str_radix(_, 16)` on a 64-bit host: an optional
sign followed by hex digits; the magnitude must fit the `isize` range. -/
def parseIsizeHex (cs : List Char) : Option Int :=
  match cs with
  | '-' :: rest => (parseHexCore (2 ^ 63 + 1) rest).map (fun v => -(v : Int))
  | '+' :: rest => (parseHexCore (2 ^ 63) rest).map (fun v => (v : Int))
  | _ => (parseHexCore (2 ^ 63) cs).map (fun v => (v : Int))

/-! ### `utils::parse_mem` (src/hermit/utils.rs) -/

/-- `mem.chars().partition(|&x| x.is_numeric())`: splits the characters
into the numeric and the non-numeric ones, each in input order. -/
def rustPartition (l : List Char) : List Char × List Char :=
  (l.filter isNumericChar, l.filter (fun c => !isNumericChar c))

/-- The multiplier selected by the suffix `match` in `parse_mem`: the
source matches the one-character strings `"E" | "e"` down to `"K" | "k"`
and falls through to an error otherwise. -/
def memFactor (post : List Char) : Option Nat :=
  match post with
  | [c] =>
    if c = 'E' ∨ c = 'e' then some (2 ^ 60)
    else if c = 'P' ∨ c = 'p' then some (2 ^ 50)
    else if c = 'T' ∨ c = 't' then some (2 ^ 40)
    else if c = 'G' ∨ c = 'g' then some (2 ^ 30)
    else if c = 'M' ∨ c = 'm' then some (2 ^ 20)
    else if c = 'K' ∨ c = 'k' then some (2 ^ 10)
    else none
  | _ => none

/-- `utils::parse_mem`.  The final `num*factor` is a `u64`
multiplication; the reduction modulo `2 ^ 64` records the release-build
wrapping semantics (all values related to the spec below stay within
range, so the reduction is inert there). -/
def parse_mem (mem : List Char) : Except Error Nat :=
  let p := rustPartition mem
  match parseU64 p.1 with
  | none => .error .ParseMemory
  | some num =>
    match memFactor p.2 with
    | none => .error .ParseMemory
    | some factor => .ok ((num * factor) % 2 ^ 64)

/-! ### Round-trip lemmas for the digit printers and parsers -/

theorem digitVal_decDigitChar : ∀ d < 10, digitVal (decDigitChar d) = d := by decide

theorem isDigit_decDigitChar : ∀ d < 10, (decDigitChar d).isDigit = true := by decide

theorem hexDigitVal_hexDigitChar : ∀ d < 16, hexDigitVal (hexDigitChar d) = d := by decide

theorem isHex_hexDigitChar : ∀ d < 16, isHexDigitRust (hexDigitChar d) = true := by decide

theorem natToDecAux_all_digits : ∀ fuel n, (natToDecAux fuel n).all Char.isDigit = true := by
  intro fuel
  induction fuel with
  | zero => intro n; rfl
  | succ f ih =>
    intro n
    by_cases h : n = 0
    · simp [natToDecAux, h]
    · simp only [natToDecAux, if_neg h, List.all_cons, Bool.and_eq_true]
      exact ⟨isDigit_decDigitChar (n % 10) (Nat.mod_lt _ (by omega)), ih (n / 10)⟩

theorem natToDecAux_val : ∀ fuel n, n ≤ fuel → valLSB digitVal 10 (natToDecAux fuel n) = n := by
  intro fuel
  induction fuel with
  | zero => intro n h; interval_cases n; rfl
  | succ f ih =>
    intro n h
    by_cases h0 : n = 0
    · simp [natToDecAux, h0, valLSB]
    · have hdiv : n / 10 ≤ f := by
        have : n / 10 < n := Nat.div_lt_self (by omega) (by omega)
        omega
      simp only [natToDecAux, if_neg h0, valLSB]
      rw [digitVal_decDigitChar (n % 10) (Nat.mod_lt _ (by omega)), ih (n / 10) hdiv]
      omega

theorem natToHexAux_all_hex : ∀ fuel n, (natToHexAux fuel n).all isHexDigitRust = true := by
  intro fuel
  induction fuel with
  | zero => intro n; rfl
  | succ f ih =>
    intro n
    by_cases h : n = 0
    · simp [natToHexAux, h]
    · simp only [natToHexAux, if_neg h, List.all_cons, Bool.and_eq_true]
      exact ⟨isHex_hexDigitChar (n % 16) (Nat.mod_lt _ (by omega)), ih (n / 16)⟩

theorem natToHexAux_val : ∀ fuel n, n ≤ fuel → valLSB hexDigitVal 16 (natToHexAux fuel n) = n := by
  intro fuel
  induction fuel with
  | zero => intro n h; interval_cases n; rfl
  | succ f ih =>
    intro n h
    by_cases h0 : n = 0
    · simp [natToHexAux, h0, valLSB]
    · have hdiv : n / 16 ≤ f := by
        have : n / 16 < n := Nat.div_lt_self (by omega) (by omega)
        omega
      simp only [natToHexAux, if_neg h0, valLSB]
      rw [hexDigitVal_hexDigitChar (n % 16) (Nat.mod_lt _ (by omega)), ih (n / 16) hdiv]
      omega

/-- Folding the most-significant-first digit string computes the value of
the least-significant-first digit list. -/
theorem foldl_reverse_val (dv : Char → Nat) (b : Nat) :
    ∀ (l : List Char) (a : Nat),
      l.reverse.foldl (fun a c => b * a + dv c) a = a * b ^ l.length + valLSB dv b l := by
  intro l
  induction l with
  | nil => intro a; simp [valLSB]
  | cons c l ih =>
    intro a
    simp only [List.reverse_cons, List.foldl_append, List.foldl_cons, List.foldl_nil, ih,
      valLSB, List.length_cons]
    ring

theorem natToDec_all_digits (n : Nat) : (natToDec n).all Char.isDigit = true := by
  by_cases h : n = 0
  · simp [natToDec, h]
  · simp only [natToDec, if_neg h, List.all_reverse]
    exact natToDecAux_all_digits (n + 1) n

theorem natToDec_ne_nil (n : Nat) : (natToDec n).isEmpty = false := by
  by_cases h : n = 0
  · simp [natToDec, h]
  · have hne : natToDecAux (n + 1) n ≠ [] := by
      intro hnil
      have := natToDecAux_val (n + 1) n (by omega)
      rw [hnil] at this
      simp [valLSB] at this
      omega
    simp only [natToDec, if_neg h]
    cases hrev : (natToDecAux (n + 1) n).reverse with
    | nil => exact absurd (List.reverse_eq_nil_iff.mp hrev) hne
    | cons a l => rfl

theorem natToDec_foldl (n : Nat) :
    (natToDec n).foldl (fun a c => 10 * a + digitVal c) 0 = n := by
  by_cases h : n = 0
  · simp [natToDec, h, digitVal]
  · simp only [natToDec, if_neg h]
    rw [foldl_reverse_val digitVal 10 (natToDecAux (n + 1) n) 0,
      natToDecAux_val (n + 1) n (by omega)]
    simp

theorem natToHex_all_hex (n : Nat) : (natToHex n).all isHexDigitRust = true := by
  by_cases h : n = 0
  · simp [natToHex, h]; rfl
  · simp only [natToHex, if_neg h, List.all_reverse]
    exact natToHexAux_all_hex (n + 1) n

theorem natToHex_ne_nil (n : Nat) : (natToHex n).isEmpty = false := by
  by_cases h : n = 0
  · simp [natToHex, h]
  · have hne : natToHexAux (n + 1) n ≠ [] := by
      intro hnil
      have := natToHexAux_val (n + 1) n (by omega)
      rw [hnil] at this
      simp [valLSB] at this
      omega
    simp only [natToHex, if_neg h]
    cases hrev : (natToHexAux (n + 1) n).reverse with
    | nil => exact absurd (List.reverse_eq_nil_iff.mp hrev) hne
    | cons a l => rfl

theorem natToHex_foldl (n : Nat) :
    (natToHex n).foldl (fun a c => 16 * a + hexDigitVal c) 0 = n := by
  by_cases h : n = 0
  · simp [natToHex, h, hexDigitVal]
  · simp only [natToHex, if_neg h]
    rw [foldl_reverse_val hexDigitVal 16 (natToHexAux (n + 1) n) 0,
      natToHexAux_val (n + 1) n (by omega)]
    simp

theorem parseNatCore_natToDec {n bound : Nat} (h : n < bound) :
    parseNatCore bound (natToDec n) = some n := by
  unfold parseNatCore
  rw [natToDec_ne_nil, natToDec_all_digits]
  simp only [Bool.not_false, Bool.and_self, if_true, natToDec_foldl]
  rw [if_pos h]

theorem parseHexCore_natToHex {n bound : Nat} (h : n < bound) :
    parseHexCore bound (natToHex n) = some n := by
  unfold parseHexCore
  rw [natToHex_ne_nil, natToHex_all_hex]
  simp only [Bool.not_false, Bool.and_self, if_true, natToHex_foldl]
  rw [if_pos h]

/-- An all-digit string never starts with `+`, so `parse::<uN>` reduces
to its core on it. -/
theorem parseU64_of_digits {cs : List Char} (h : cs.all Char.isDigit = true) :
    parseU64 cs = parseNatCore (2 ^ 64) cs := by
  match cs with
  | [] => rfl
  | c :: rest =>
    have hc : c.isDigit = true := by
      simp only [List.all_cons, Bool.and_eq_true] at h
      exact h.1
    have hne : c ≠ '+' := by
      intro hplus
      rw [hplus] at hc
      simp [Char.isDigit] at hc
    unfold parseU64
    split
    · rename_i heq
      cases heq
      exact absurd rfl hne
    · rfl

theorem parseU32_of_digits {cs : List Char} (h : cs.all Char.isDigit = true) :
    parseU32 cs = parseNatCore (2 ^ 32) cs := by
  match cs with
  | [] => rfl
  | c :: rest =>
    have hc : c.isDigit = true := by
      simp only [List.all_cons, Bool.and_eq_true] at h
      exact h.1
    have hne : c ≠ '+' := by
      intro hplus
      rw [hplus] at hc
      simp [Char.isDigit] at hc
    unfold parseU32
    split
    · rename_i heq
      cases heq
      exact absurd rfl hne
    · rfl

theorem parseU64Hex_of_hex {cs : List Char} (h : cs.all isHexDigitRust = true) :
    parseU64Hex cs = parseHexCore (2 ^ 64) cs := by
  match cs with
  | [] => rfl
  | c :: rest =>
    have hc : isHexDigitRust c = true := by
      simp only [List.all_cons, Bool.and_eq_true] at h
      exact h.1
    have hne : c ≠ '+' := by
      intro hplus
      rw [hplus] at hc
      simp [isHexDigitRust, Char.isDigit] at hc
    unfold parseU64Hex
    split
    · rename_i heq
      cases heq
      exact absurd rfl hne
    · rfl

theorem parseIsizeHex_of_hex {cs : List Char} (h : cs.all isHexDigitRust = true) :
    parseIsizeHex cs = (parseHexCore (2 ^ 63) cs).map (fun v => (v : Int)) := by
  match cs with
  | [] => rfl
  | c :: rest =>
    have hc : isHexDigitRust c = true := by
      simp only [List.all_cons, Bool.and_eq_true] at h
      exact h.1
    have hm : c ≠ '-' := by
      intro hch
      rw [hch] at hc
      simp [isHexDigitRust, Char.isDigit] at hc
    have hp : c ≠ '+' := by
      intro hch
      rw [hch] at hc
      simp [isHexDigitRust, Char.isDigit] at hc
    unfold parseIsizeHex
    split
    · rename_i heq
      cases heq
      exact absurd rfl hm
    · rename_i heq
      cases heq
      exact absurd rfl hp
    · rfl

/-! ### Facts about `parse_mem` -/

instance {ε α : Type} [DecidableEq ε] [DecidableEq α] : DecidableEq (Except ε α) := by
  intro a b
  cases a <;> cases b
  case error.error e f =>
    exact if h : e = f then isTrue (by rw [h]) else isFalse (by intro hh; injection hh; contradiction)
  case error.ok e v => exact isFalse (fun hh => Except.noConfusion hh)
  case ok.error v e => exact isFalse (fun hh => Except.noConfusion hh)
  case ok.ok v w =>
    exact if h : v = w then isTrue (by rw [h]) else isFalse (by intro hh; injection hh; contradiction)

theorem filter_numeric_of_digits {l : List Char} (h : l.all Char.isDigit = true) :
    l.filter isNumericChar = l := by
  rw [List.filter_eq_self]
  intro a ha
  have := List.all_eq_true.mp h a ha
  simpa [isNumericChar] using this

theorem filter_not_numeric_of_digits {l : List Char} (h : l.all Char.isDigit = true) :
    l.filter (fun c => !isNumericChar c) = [] := by
  rw [List.filter_eq_nil_iff]
  intro a ha
  have := List.all_eq_true.mp h a ha
  simp [isNumericChar, this]

theorem rustPartition_digits_suffix {l : List Char} {c : Char}
    (hl : l.all Char.isDigit = true) (hc : isNumericChar c = false) :
    rustPartition (l ++ [c]) = (l, [c]) := by
  unfold rustPartition
  rw [List.filter_append, List.filter_append,
    filter_numeric_of_digits hl, filter_not_numeric_of_digits hl]
  simp [hc]

theorem rustPartition_digits_digit {l : List Char} {c : Char}
    (hl : l.all Char.isDigit = true) (hc : isNumericChar c = true) :
    rustPartition (l ++ [c]) = (l ++ [c], []) := by
  unfold rustPartition
  rw [List.filter_append, List.filter_append,
    filter_numeric_of_digits hl, filter_not_numeric_of_digits hl]
  simp [hc]

theorem memFactor_accepted_not_numeric {c : Char} {f : Nat}
    (h : memFactor [c] = some f) : isNumericChar c = false := by
  have hred : memFactor [c] =
      (if c = 'E' ∨ c = 'e' then some (2 ^ 60)
       else if c = 'P' ∨ c = 'p' then some (2 ^ 50)
       else if c = 'T' ∨ c = 't' then some (2 ^ 40)
       else if c = 'G' ∨ c = 'g' then some (2 ^ 30)
       else if c = 'M' ∨ c = 'm' then some (2 ^ 20)
       else if c = 'K' ∨ c = 'k' then some (2 ^ 10)
       else none) := rfl
  rw [hred] at h
  split_ifs at h <;> first
    | (rename_i hc; rcases hc with hc | hc <;> (subst hc; rfl))
    | exact absurd h (by simp)

theorem memFactor_none_of_not_accepted {c : Char}
    (h : c ∉ ['K', 'k', 'M', 'm', 'G', 'g', 'T', 't', 'P', 'p', 'E', 'e']) :
    memFactor [c] = none := by
  simp only [List.mem_cons, List.not_mem_nil, or_false] at h
  push_neg at h
  obtain ⟨h1, h2, h3, h4, h5, h6, h7, h8, h9, h10, h11, h12⟩ := h
  have hred : memFactor [c] =
      (if c = 'E' ∨ c = 'e' then some (2 ^ 60)
       else if c = 'P' ∨ c = 'p' then some (2 ^ 50)
       else if c = 'T' ∨ c = 't' then some (2 ^ 40)
       else if c = 'G' ∨ c = 'g' then some (2 ^ 30)
       else if c = 'M' ∨ c = 'm' then some (2 ^ 20)
       else if c = 'K' ∨ c = 'k' then some (2 ^ 10)
       else none) := rfl
  rw [hred]
  split_ifs <;> first
    | rfl
    | (rename_i hc; rcases hc with hc | hc <;> simp_all)

/-- `parseNatCore` fails whenever the digit value does not fit `bound`. -/
theorem parseNatCore_none_of_ge {cs : List Char} {bound : Nat}
    (h : bound ≤ cs.foldl (fun a c => 10 * a + digitVal c) 0) :
    parseNatCore bound cs = none := by
  unfold parseNatCore
  cases hcond : (!cs.isEmpty && cs.all Char.isDigit)
  · simp
  · simp only [if_true]
    rw [if_neg (by omega)]

/-- Main positive branch of `parse_mem` on a well-formed input: decimal
digits followed by one accepted suffix character, everything in `u64`
range. -/
theorem parse_mem_ok {n f : Nat} {c : Char}
    (hf : memFactor [c] = some f) (h64 : n < 2 ^ 64) (hpf : n * f < 2 ^ 64) :
    parse_mem (natToDec n ++ [c]) = .ok (n * f) := by
  have hc := memFactor_accepted_not_numeric hf
  unfold parse_mem
  rw [rustPartition_digits_suffix (natToDec_all_digits n) hc]
  simp only [parseU64_of_digits (natToDec_all_digits n), parseNatCore_natToDec h64, hf,
    Nat.mod_eq_of_lt hpf]

/-- `parse_mem` rejects any unrecognized single-character suffix. -/
theorem parse_mem_bad_suffix (n : Nat) {c : Char}
    (h : c ∉ ['K', 'k', 'M', 'm', 'G', 'g', 'T', 't', 'P', 'p', 'E', 'e']) :
    parse_mem (natToDec n ++ [c]) = .error .ParseMemory := by
  by_cases hc : isNumericChar c = true
  · unfold parse_mem
    rw [rustPartition_digits_digit (natToDec_all_digits n) hc]
    have hall : (natToDec n ++ [c]).all Char.isDigit = true := by
      simp only [List.all_append, natToDec_all_digits, Bool.true_and, List.all_cons,
        List.all_nil, Bool.and_true]
      simpa [isNumericChar] using hc
    simp only [parseU64_of_digits hall]
    cases hp : parseNatCore (2 ^ 64) (natToDec n ++ [c]) <;> rfl
  · unfold parse_mem
    rw [rustPartition_digits_suffix (natToDec_all_digits n) (by simpa using hc)]
    simp only [parseU64_of_digits (natToDec_all_digits n),
      memFactor_none_of_not_accepted h]
    cases hp : parseNatCore (2 ^ 64) (natToDec n) <;> rfl

/-- `parse_mem` rejects a bare number (empty suffix). -/
theorem parse_mem_no_suffix (n : Nat) :
    parse_mem (natToDec n) = .error .ParseMemory := by
  unfold parse_mem
  have hp : rustPartition (natToDec n) = (natToDec n, []) := by
    unfold rustPartition
    rw [filter_numeric_of_digits (natToDec_all_digits n),
      filter_not_numeric_of_digits (natToDec_all_digits n)]
  rw [hp]
  simp only [parseU64_of_digits (natToDec_all_digits n)]
  cases hq : parseNatCore (2 ^ 64) (natToDec n) <;> rfl

/-- Claim C5, counterexample: the claim quantifies over every decimal
number `n`, but for `n = 2 ^ 64` (one past `u64::MAX`) the `u64` parse
inside `parse_mem` fails, so `parse_mem("18446744073709551616K")` is an
error rather than the claimed `Ok(n * 1024)`. -/
theorem claim_C5_counterexample :
    parse_mem ("18446744073709551616K".toList) = .error .ParseMemory ∧
    parse_mem ("18446744073709551616K".toList) ≠ .ok (18446744073709551616 * 1024) := by
  constructor
  · decide
  · decide

/-- Claim C5 (amended): for every decimal number `n` that fits in `u64`
and every accepted suffix in `{K,M,G,T,P,E}` (either case), as long as
the scaled value `n * 2 ^ k` also fits in `u64`, `parse_mem` returns
`Ok(n * 2 ^ k)` with `k ∈ {10,20,30,40,50,60}` respectively; a number
`≥ 2 ^ 64` fails to parse; any other suffix (including the empty
suffix) yields `Err(ParseMemory)`; and the concrete examples
`parse_mem("512M") = 536870912`, `parse_mem("1G") = 1073741824`,
`parse_mem("7X")` fails, all hold. -/
theorem claim_C5_amended :
    (∀ n : Nat, n < 2 ^ 64 →
      (n * 2 ^ 10 < 2 ^ 64 → parse_mem (natToDec n ++ ['K']) = .ok (n * 2 ^ 10) ∧
                             parse_mem (natToDec n ++ ['k']) = .ok (n * 2 ^ 10)) ∧
      (n * 2 ^ 20 < 2 ^ 64 → parse_mem (natToDec n ++ ['M']) = .ok (n * 2 ^ 20) ∧
                             parse_mem (natToDec n ++ ['m']) = .ok (n * 2 ^ 20)) ∧
      (n * 2 ^ 30 < 2 ^ 64 → parse_mem (natToDec n ++ ['G']) = .ok (n * 2 ^ 30) ∧
                             parse_mem (natToDec n ++ ['g']) = .ok (n * 2 ^ 30)) ∧
      (n * 2 ^ 40 < 2 ^ 64 → parse_mem (natToDec n ++ ['T']) = .ok (n * 2 ^ 40) ∧
                             parse_mem (natToDec n ++ ['t']) = .ok (n * 2 ^ 40)) ∧
      (n * 2 ^ 50 < 2 ^ 64 → parse_mem (natToDec n ++ ['P']) = .ok (n * 2 ^ 50) ∧
                             parse_mem (natToDec n ++ ['p']) = .ok (n * 2 ^ 50)) ∧
      (n * 2 ^ 60 < 2 ^ 64 → parse_mem (natToDec n ++ ['E']) = .ok (n * 2 ^ 60) ∧
                             parse_mem (natToDec n ++ ['e']) = .ok (n * 2 ^ 60))) ∧
    (∀ (n : Nat) (c : Char), 2 ^ 64 ≤ n →
      parse_mem (natToDec n ++ [c]) = .error .ParseMemory) ∧
    (∀ (n : Nat) (c : Char),
      c ∉ ['K', 'k', 'M', 'm', 'G', 'g', 'T', 't', 'P', 'p', 'E', 'e'] →
      parse_mem (natToDec n ++ [c]) = .error .ParseMemory) ∧
    (∀ n : Nat, parse_mem (natToDec n) = .error .ParseMemory) ∧
    parse_mem ("512M".toList) = .ok 536870912 ∧
    parse_mem ("1G".toList) = .ok 1073741824 ∧
    parse_mem ("7X".toList) = .error .ParseMemory := by
  refine ⟨?_, ?_, fun n c h => parse_mem_bad_suffix n h, parse_mem_no_suffix,
    by decide, by decide, by decide⟩
  · intro n h64
    exact ⟨fun hp => ⟨parse_mem_ok rfl h64 hp, parse_mem_ok rfl h64 hp⟩,
      fun hp => ⟨parse_mem_ok rfl h64 hp, parse_mem_ok rfl h64 hp⟩,
      fun hp => ⟨parse_mem_ok rfl h64 hp, parse_mem_ok rfl h64 hp⟩,
      fun hp => ⟨parse_mem_ok rfl h64 hp, parse_mem_ok rfl h64 hp⟩,
      fun hp => ⟨parse_mem_ok rfl h64 hp, parse_mem_ok rfl h64 hp⟩,
      fun hp => ⟨parse_mem_ok rfl h64 hp, parse_mem_ok rfl h64 hp⟩⟩
  · intro n c hn
    by_cases hc : isNumericChar c = true
    · unfold parse_mem
      rw [rustPartition_digits_digit (natToDec_all_digits n) hc]
      have hall : (natToDec n ++ [c]).all Char.isDigit = true := by
        simp only [List.all_append, natToDec_all_digits, Bool.true_and, List.all_cons,
          List.all_nil, Bool.and_true]
        simpa [isNumericChar] using hc
      have hval : 2 ^ 64 ≤ (natToDec n ++ [c]).foldl (fun a c => 10 * a + digitVal c) 0 := by
        rw [List.foldl_append, natToDec_foldl]
        simp only [List.foldl_cons, List.foldl_nil]
        omega
      simp only [parseU64_of_digits hall, parseNatCore_none_of_ge hval]
    · unfold parse_mem
      rw [rustPartition_digits_suffix (natToDec_all_digits n) (by simpa using hc)]
      have hval : 2 ^ 64 ≤ (natToDec n).foldl (fun a c => 10 * a + digitVal c) 0 := by
        rw [natToDec_foldl]; omega
      simp only [parseU64_of_digits (natToDec_all_digits n), parseNatCore_none_of_ge hval]

/-- Claim C5 (amended), witness: the `M` suffix at `n = 512`. -/
theorem claim_C5_amended_witness :
    parse_mem (natToDec 512 ++ ['M']) = .ok (512 * 2 ^ 20) :=
  ((claim_C5_amended.1 512 (by decide)).2.1 (by decide)).1

/-! ### Rust `str::lines` -/

/-- Strips one trailing carriage return (Rust `lines` treats `\r\n` as a
line terminator). -/
def stripCR (l : List Char) : List Char :=
  match l.getLast? with
  | some '\r' => l.dropLast
  | _ => l

/-- Worker for Rust `str::lines`: `acc` holds the current line reversed.
A final segment is emitted only when non-empty (a trailing newline does
not produce an extra empty line). -/
def rustLinesAux : List Char → List Char → List (List Char)
  | acc, [] => if acc.isEmpty then [] else [acc.reverse]
  | acc, c :: rest =>
    if c = '\n' then stripCR acc.reverse :: rustLinesAux [] rest
    else rustLinesAux (c :: acc) rest

/-- Rust `str::lines`. -/
def rustLines (s : List Char) : List (List Char) := rustLinesAux [] s

theorem stripCR_eq_self {l : List Char} (h : ∀ c ∈ l, c ≠ '\r') : stripCR l = l := by
  unfold stripCR
  cases hl : l.getLast? with
  | none => rfl
  | some c =>
    have hmem : c ∈ l := by
      obtain ⟨hne, heq⟩ := List.mem_getLast?_eq_getLast hl
      rw [heq]
      exact List.getLast_mem hne
    have hc : c ≠ '\r' := h c hmem
    split
    · rename_i heq
      injection heq with heq
      exact absurd heq hc
    · rfl

theorem rustLinesAux_append_newline {A : List Char} (hA : ∀ c ∈ A, c ≠ '\n') :
    ∀ (acc rest : List Char),
      rustLinesAux acc (A ++ '\n' :: rest) =
        stripCR (acc.reverse ++ A) :: rustLinesAux [] rest := by
  induction A with
  | nil =>
    intro acc rest
    simp [rustLinesAux]
  | cons a A ih =>
    intro acc rest
    have ha : a ≠ '\n' := hA a (by simp)
    have hA' : ∀ c ∈ A, c ≠ '\n' := fun c hc => hA c (by simp [hc])
    simp only [List.cons_append, rustLinesAux, if_neg ha, List.append_eq]
    rw [ih hA' (a :: acc) rest]
    simp

theorem rustLinesAux_final {E : List Char} (hE : ∀ c ∈ E, c ≠ '\n') :
    ∀ acc : List Char,
      rustLinesAux acc E =
        if (acc.reverse ++ E).isEmpty then [] else [acc.reverse ++ E] := by
  induction E with
  | nil =>
    intro acc
    cases acc <;> simp [rustLinesAux]
  | cons e E ih =>
    intro acc
    have he : e ≠ '\n' := hE e (by simp)
    have hE' : ∀ c ∈ E, c ≠ '\n' := fun c hc => hE c (by simp [hc])
    simp only [rustLinesAux, if_neg he]
    rw [ih hE' (e :: acc)]
    simp

/-- Splitting a five-line text (no internal newlines, no carriage
returns, non-empty last line) recovers exactly the five lines. -/
theorem rustLines_five {L1 L2 L3 L4 L5 : List Char}
    (h1 : ∀ c ∈ L1, c ≠ '\n') (r1 : ∀ c ∈ L1, c ≠ '\r')
    (h2 : ∀ c ∈ L2, c ≠ '\n') (r2 : ∀ c ∈ L2, c ≠ '\r')
    (h3 : ∀ c ∈ L3, c ≠ '\n') (r3 : ∀ c ∈ L3, c ≠ '\r')
    (h4 : ∀ c ∈ L4, c ≠ '\n') (r4 : ∀ c ∈ L4, c ≠ '\r')
    (h5 : ∀ c ∈ L5, c ≠ '\n') (n5 : L5 ≠ []) :
    rustLines (L1 ++ '\n' :: (L2 ++ '\n' :: (L3 ++ '\n' :: (L4 ++ '\n' :: L5)))) =
      [L1, L2, L3, L4, L5] := by
  unfold rustLines
  rw [rustLinesAux_append_newline h1, rustLinesAux_append_newline h2,
    rustLinesAux_append_newline h3, rustLinesAux_append_newline h4,
    rustLinesAux_final h5 []]
  simp only [List.reverse_nil, List.nil_append]
  rw [stripCR_eq_self r1, stripCR_eq_self r2, stripCR_eq_self r3, stripCR_eq_self r4]
  have : L5.isEmpty = false := by
    cases L5 with
    | nil => exact absurd rfl n5
    | cons a l => rfl
  rw [this]
  rfl

/-! ### `CheckpointConfig` (src/hermit/uhyve/checkpoint.rs) -/

/-- In-memory checkpoint metadata: `{num_cpus: u32, mem_size: isize,
checkpoint_number: u32, elf_entry: u64, full: bool}`. -/
structure CheckpointConfig where
  num_cpus : Nat
  mem_size : Int
  checkpoint_number : Nat
  elf_entry : Nat
  full : Bool
  deriving DecidableEq, Repr

def coresKey : List Char := "number of cores: ".toList
def memSizeKey : List Char := "memory size: 0x".toList
def chkNumKey : List Char := "checkpoint number: ".toList
def entryKey : List Char := "entry point: 0x".toList
def fullKey : List Char := "full checkpoint: ".toList

/-- `CheckpointConfig::check_line`: find the first line starting with
`start` and return the remainder after the key. -/
def check_line (ls : List (List Char)) (start : List Char) : Option (List Char) :=
  (ls.find? (fun l => start.isPrefixOf l)).map (fun l => l.drop start.length)

/-- `CheckpointConfig::from`.  Faithful detail: the source calls
`data.lines()` afresh for every field (`&mut data.lines()` on a new
iterator), so every key is searched from the first line of the input. -/
def CheckpointConfig.fromData (data : List Char) : Except Error CheckpointConfig :=
  match (check_line (rustLines data) coresKey).bind parseU32 with
  | none => .error .InvalidCheckpoint
  | some cores =>
    match (check_line (rustLines data) memSizeKey).bind parseIsizeHex with
    | none => .error .InvalidCheckpoint
    | some size =>
      match (check_line (rustLines data) chkNumKey).bind parseU32 with
      | none => .error .InvalidCheckpoint
      | some num =>
        match (check_line (rustLines data) entryKey).bind parseU64Hex with
        | none => .error .InvalidCheckpoint
        | some entry =>
          match (check_line (rustLines data) fullKey).bind parseU32 with
          | none => .error .InvalidCheckpoint
          | some fullv => .ok ⟨cores, size, num, entry, fullv != 0⟩

/-- Rust `format!("{:#x}", v)` for a 64-bit signed `v`: `0x` followed by
the lowercase hex digits of the two's-complement bit pattern. -/
def intToHexFmtChars (v : Int) : List Char :=
  '0' :: 'x' :: natToHex ((v % (2 ^ 64 : Int)).toNat)

/-- `ToString for CheckpointConfig` (`to_string`): the five-line text
with `{}` decimal for `num_cpus`/`checkpoint_number`, `{:#x}` for
`mem_size`/`elf_entry`, and `full as i32` printed as `0`/`1`.  There is
no trailing newline. -/
def CheckpointConfig.toText (c : CheckpointConfig) : List Char :=
  "number of cores: ".toList ++ natToDec c.num_cpus ++ '\n' ::
    ("memory size: ".toList ++ intToHexFmtChars c.mem_size ++ '\n' ::
      ("checkpoint number: ".toList ++ natToDec c.checkpoint_number ++ '\n' ::
        ("entry point: ".toList ++ ('0' :: 'x' :: natToHex c.elf_entry) ++ '\n' ::
          ("full checkpoint: ".toList ++ (if c.full then ['1'] else ['0'])))))

/-! ### Parsing facts for the checkpoint text format -/

theorem isPrefixOf_append_self : ∀ (k r : List Char), k.isPrefixOf (k ++ r) = true := by
  intro k
  induction k with
  | nil => intro r; cases r <;> rfl
  | cons a as ih =>
    intro r
    show (a == a && as.isPrefixOf (as ++ r)) = true
    simp [ih r]

/-- If neither of `k`, `k'` is a prefix of the other, they disagree at
some position inside both, so appending anything to `k'` cannot make `k`
a prefix. -/
theorem isPrefixOf_append_false_of_mismatch :
    ∀ (k k' v : List Char), k.isPrefixOf k' = false → k'.isPrefixOf k = false →
      k.isPrefixOf (k' ++ v) = false := by
  intro k
  induction k with
  | nil =>
    intro k' v h _
    have : ([] : List Char).isPrefixOf k' = true := by cases k' <;> rfl
    rw [this] at h
    exact absurd h (by simp)
  | cons a as ih =>
    intro k' v h h2
    cases k' with
    | nil =>
      have : ([] : List Char).isPrefixOf (a :: as) = true := rfl
      rw [this] at h2
      exact absurd h2 (by simp)
    | cons b bs =>
      have h' : (a == b && as.isPrefixOf bs) = false := h
      have h2' : (b == a && bs.isPrefixOf as) = false := h2
      show (a == b && as.isPrefixOf (bs ++ v)) = false
      cases hab : (a == b) with
      | false => simp
      | true =>
        have hba : (b == a) = true := by
          have : a = b := by simpa using hab
          simp [this]
        rw [hab] at h'
        rw [hba] at h2'
        simp only [Bool.true_and] at h' h2' ⊢
        exact ih bs v h' h2'

theorem check_line_hit {k l : List Char} (ls : List (List Char))
    (h : k.isPrefixOf l = true) :
    check_line (l :: ls) k = some (l.drop k.length) := by
  simp [check_line, List.find?_cons, h]

theorem check_line_miss {k l : List Char} (ls : List (List Char))
    (h : k.isPrefixOf l = false) :
    check_line (l :: ls) k = check_line ls k := by
  simp [check_line, List.find?_cons, h]

theorem check_line_some {ls : List (List Char)} {k s : List Char}
    (h : check_line ls k = some s) : ∃ l ∈ ls, k.isPrefixOf l = true := by
  unfold check_line at h
  cases hf : ls.find? (fun l => k.isPrefixOf l) with
  | none => rw [hf] at h; simp at h
  | some l =>
    exact ⟨l, List.mem_of_find?_eq_some hf, by simpa using List.find?_some hf⟩

theorem digits_no_nl {l : List Char} (h : l.all Char.isDigit = true) :
    ∀ c ∈ l, c ≠ '\n' := by
  intro c hc heq
  have := List.all_eq_true.mp h c hc
  subst heq
  exact absurd this (by decide)

theorem digits_no_cr {l : List Char} (h : l.all Char.isDigit = true) :
    ∀ c ∈ l, c ≠ '\r' := by
  intro c hc heq
  have := List.all_eq_true.mp h c hc
  subst heq
  exact absurd this (by decide)

theorem hex_no_nl {l : List Char} (h : l.all isHexDigitRust = true) :
    ∀ c ∈ l, c ≠ '\n' := by
  intro c hc heq
  have := List.all_eq_true.mp h c hc
  subst heq
  exact absurd this (by decide)

theorem hex_no_cr {l : List Char} (h : l.all isHexDigitRust = true) :
    ∀ c ∈ l, c ≠ '\r' := by
  intro c hc heq
  have := List.all_eq_true.mp h c hc
  subst heq
  exact absurd this (by decide)

/-- The serialized text, rewritten so that every line is its parser key
followed by the bare digit string (for non-negative `mem_size` the
two's-complement reduction in `{:#x}` is inert). -/
theorem toText_eq (c : CheckpointConfig) (h2 : 0 ≤ c.mem_size) (h3 : c.mem_size < 2 ^ 63) :
    c.toText = (coresKey ++ natToDec c.num_cpus) ++ '\n' ::
      ((memSizeKey ++ natToHex c.mem_size.toNat) ++ '\n' ::
        ((chkNumKey ++ natToDec c.checkpoint_number) ++ '\n' ::
          ((entryKey ++ natToHex c.elf_entry) ++ '\n' ::
            (fullKey ++ (if c.full then ['1'] else ['0']))))) := by
  have hmod : c.mem_size % (2 ^ 64 : Int) = c.mem_size :=
    Int.emod_eq_of_lt h2 (lt_trans h3 (by norm_num))
  simp only [CheckpointConfig.toText, intToHexFmtChars, hmod]
  rfl

/-- Claim C4: serializing a `CheckpointConfig` with `to_string` and
parsing it back with `CheckpointConfig::from` yields the identical
record, field for field, for every in-range configuration with
non-negative `mem_size`. -/
theorem claim_C4 (c : CheckpointConfig) (h1 : c.num_cpus < 2 ^ 32) (h2 : 0 ≤ c.mem_size)
    (h3 : c.mem_size < 2 ^ 63) (h4 : c.checkpoint_number < 2 ^ 32) (h5 : c.elf_entry < 2 ^ 64) :
    CheckpointConfig.fromData c.toText = .ok c := by
  obtain ⟨nc, ms, cn, ee, fl⟩ := c
  simp only at h1 h2 h3 h4 h5
  rw [toText_eq ⟨nc, ms, cn, ee, fl⟩ h2 h3]
  simp only
  have hfull_digits : (if fl then ['1'] else ['0']).all Char.isDigit = true := by
    cases fl <;> decide
  have hlines :
      rustLines ((coresKey ++ natToDec nc) ++ '\n' ::
        ((memSizeKey ++ natToHex ms.toNat) ++ '\n' ::
          ((chkNumKey ++ natToDec cn) ++ '\n' ::
            ((entryKey ++ natToHex ee) ++ '\n' ::
              (fullKey ++ (if fl then ['1'] else ['0'])))))) =
      [coresKey ++ natToDec nc, memSizeKey ++ natToHex ms.toNat,
        chkNumKey ++ natToDec cn, entryKey ++ natToHex ee,
        fullKey ++ (if fl then ['1'] else ['0'])] := by
    apply rustLines_five
    · exact List.forall_mem_append.mpr ⟨by decide, digits_no_nl (natToDec_all_digits nc)⟩
    · exact List.forall_mem_append.mpr ⟨by decide, digits_no_cr (natToDec_all_digits nc)⟩
    · exact List.forall_mem_append.mpr ⟨by decide, hex_no_nl (natToHex_all_hex ms.toNat)⟩
    · exact List.forall_mem_append.mpr ⟨by decide, hex_no_cr (natToHex_all_hex ms.toNat)⟩
    · exact List.forall_mem_append.mpr ⟨by decide, digits_no_nl (natToDec_all_digits cn)⟩
    · exact List.forall_mem_append.mpr ⟨by decide, digits_no_cr (natToDec_all_digits cn)⟩
    · exact List.forall_mem_append.mpr ⟨by decide, hex_no_nl (natToHex_all_hex ee)⟩
    · exact List.forall_mem_append.mpr ⟨by decide, hex_no_cr (natToHex_all_hex ee)⟩
    · exact List.forall_mem_append.mpr ⟨by decide, digits_no_nl hfull_digits⟩
    · simp [fullKey]
  have e1 : check_line [coresKey ++ natToDec nc, memSizeKey ++ natToHex ms.toNat,
      chkNumKey ++ natToDec cn, entryKey ++ natToHex ee,
      fullKey ++ (if fl then ['1'] else ['0'])] coresKey = some (natToDec nc) := by
    rw [check_line_hit _ (isPrefixOf_append_self _ _), List.drop_left]
  have e2 : check_line [coresKey ++ natToDec nc, memSizeKey ++ natToHex ms.toNat,
      chkNumKey ++ natToDec cn, entryKey ++ natToHex ee,
      fullKey ++ (if fl then ['1'] else ['0'])] memSizeKey = some (natToHex ms.toNat) := by
    rw [check_line_miss _ (isPrefixOf_append_false_of_mismatch _ _ _ (by decide) (by decide)),
      check_line_hit _ (isPrefixOf_append_self _ _), List.drop_left]
  have e3 : check_line [coresKey ++ natToDec nc, memSizeKey ++ natToHex ms.toNat,
      chkNumKey ++ natToDec cn, entryKey ++ natToHex ee,
      fullKey ++ (if fl then ['1'] else ['0'])] chkNumKey = some (natToDec cn) := by
    rw [check_line_miss _ (isPrefixOf_append_false_of_mismatch _ _ _ (by decide) (by decide)),
      check_line_miss _ (isPrefixOf_append_false_of_mismatch _ _ _ (by decide) (by decide)),
      check_line_hit _ (isPrefixOf_append_self _ _), List.drop_left]
  have e4 : check_line [coresKey ++ natToDec nc, memSizeKey ++ natToHex ms.toNat,
      chkNumKey ++ natToDec cn, entryKey ++ natToHex ee,
      fullKey ++ (if fl then ['1'] else ['0'])] entryKey = some (natToHex ee) := by
    rw [check_line_miss _ (isPrefixOf_append_false_of_mismatch _ _ _ (by decide) (by decide)),
      check_line_miss _ (isPrefixOf_append_false_of_mismatch _ _ _ (by decide) (by decide)),
      check_line_miss _ (isPrefixOf_append_false_of_mismatch _ _ _ (by decide) (by decide)),
      check_line_hit _ (isPrefixOf_append_self _ _), List.drop_left]
  have e5 : check_line [coresKey ++ natToDec nc, memSizeKey ++ natToHex ms.toNat,
      chkNumKey ++ natToDec cn, entryKey ++ natToHex ee,
      fullKey ++ (if fl then ['1'] else ['0'])] fullKey
        = some (if fl then ['1'] else ['0']) := by
    rw [check_line_miss _ (isPrefixOf_append_false_of_mismatch _ _ _ (by decide) (by decide)),
      check_line_miss _ (isPrefixOf_append_false_of_mismatch _ _ _ (by decide) (by decide)),
      check_line_miss _ (isPrefixOf_append_false_of_mismatch _ _ _ (by decide) (by decide)),
      check_line_miss _ (isPrefixOf_append_false_of_mismatch _ _ _ (by decide) (by decide)),
      check_line_hit _ (isPrefixOf_append_self _ _), List.drop_left]
  have p1 : parseU32 (natToDec nc) = some nc := by
    rw [parseU32_of_digits (natToDec_all_digits nc), parseNatCore_natToDec h1]
  have p2 : parseIsizeHex (natToHex ms.toNat) = some ms := by
    rw [parseIsizeHex_of_hex (natToHex_all_hex ms.toNat),
      parseHexCore_natToHex (by omega)]
    simp [Int.toNat_of_nonneg h2]
  have p3 : parseU32 (natToDec cn) = some cn := by
    rw [parseU32_of_digits (natToDec_all_digits cn), parseNatCore_natToDec h4]
  have p4 : parseU64Hex (natToHex ee) = some ee := by
    rw [parseU64Hex_of_hex (natToHex_all_hex ee), parseHexCore_natToHex h5]
  have p5 : parseU32 (if fl then ['1'] else ['0']) = some (if fl then 1 else 0) := by
    cases fl <;> decide
  simp only [CheckpointConfig.fromData, hlines, e1, e2, e3, e4, e5, p1, p2, p3, p4, p5,
    Option.bind_some, Option.some_bind]
  cases fl <;> rfl

/-- Claim C4, witness: the round trip evaluated at a concrete
configuration. -/
theorem claim_C4_witness :
    CheckpointConfig.fromData (CheckpointConfig.toText ⟨2, 512, 3, 2097152, true⟩) =
      .ok ⟨2, 512, 3, 2097152, true⟩ :=
  claim_C4 ⟨2, 512, 3, 2097152, true⟩ (by decide) (by decide) (by decide) (by decide) (by decide)

/-- The canonical `to_string` text with its first two lines exchanged: a
syntactically out-of-canonical-order input used to exercise the
order-independence of `CheckpointConfig::from`.  (Constructed for the
theorem statements below; not itself a source function.) -/
def CheckpointConfig.toTextSwapFirst (c : CheckpointConfig) : List Char :=
  "memory size: ".toList ++ intToHexFmtChars c.mem_size ++ '\n' ::
    ("number of cores: ".toList ++ natToDec c.num_cpus ++ '\n' ::
      ("checkpoint number: ".toList ++ natToDec c.checkpoint_number ++ '\n' ::
        ("entry point: ".toList ++ ('0' :: 'x' :: natToHex c.elf_entry) ++ '\n' ::
          ("full checkpoint: ".toList ++ (if c.full then ['1'] else ['0'])))))

theorem toTextSwapFirst_eq (c : CheckpointConfig) (h2 : 0 ≤ c.mem_size)
    (h3 : c.mem_size < 2 ^ 63) :
    c.toTextSwapFirst = (memSizeKey ++ natToHex c.mem_size.toNat) ++ '\n' ::
      ((coresKey ++ natToDec c.num_cpus) ++ '\n' ::
        ((chkNumKey ++ natToDec c.checkpoint_number) ++ '\n' ::
          ((entryKey ++ natToHex c.elf_entry) ++ '\n' ::
            (fullKey ++ (if c.full then ['1'] else ['0']))))) := by
  have hmod : c.mem_size % (2 ^ 64 : Int) = c.mem_size :=
    Int.emod_eq_of_lt h2 (lt_trans h3 (by norm_num))
  simp only [CheckpointConfig.toTextSwapFirst, intToHexFmtChars, hmod]
  rfl

/-- Claim C3, counterexample: an input whose fields are out of the
canonical §6 order (memory size first) parses successfully, whereas the
claim asserts it must fail with `InvalidCheckpoint`. -/
theorem claim_C3_counterexample :
    CheckpointConfig.fromData
        ("memory size: 0x200\nnumber of cores: 2\ncheckpoint number: 0\nentry point: 0x200000\nfull checkpoint: 1".toList) =
      .ok ⟨2, 512, 0, 2097152, true⟩ ∧
    CheckpointConfig.fromData
        ("memory size: 0x200\nnumber of cores: 2\ncheckpoint number: 0\nentry point: 0x200000\nfull checkpoint: 1".toList) ≠
      .error .InvalidCheckpoint := by
  constructor
  · decide
  · decide

/-- Claim C3 (amended): `CheckpointConfig::from` requires each key to be
present with a parseable value, but not in any particular order: every
field is searched from the first line of the input (the source builds a
fresh `data.lines()` iterator per field), so a successfully parsed input
yields, for each of the five keys, some line starting with that key, and
an input with the canonical lines out of order (memory size first) still
parses successfully to the same record. -/
theorem claim_C3_amended :
    (∀ (data : List Char) (c : CheckpointConfig),
      CheckpointConfig.fromData data = .ok c →
      ∀ k ∈ [coresKey, memSizeKey, chkNumKey, entryKey, fullKey],
        ∃ l ∈ rustLines data, k.isPrefixOf l = true) ∧
    (∀ c : CheckpointConfig, c.num_cpus < 2 ^ 32 → 0 ≤ c.mem_size → c.mem_size < 2 ^ 63 →
      c.checkpoint_number < 2 ^ 32 → c.elf_entry < 2 ^ 64 →
      CheckpointConfig.fromData c.toTextSwapFirst = .ok c) := by
  constructor
  · intro data c h
    unfold CheckpointConfig.fromData at h
    split at h
    · exact absurd h (by simp)
    · rename_i cores hc1
      split at h
      · exact absurd h (by simp)
      · rename_i size hc2
        split at h
        · exact absurd h (by simp)
        · rename_i num hc3
          split at h
          · exact absurd h (by simp)
          · rename_i entry hc4
            split at h
            · exact absurd h (by simp)
            · rename_i fullv hc5
              intro k hk
              simp only [List.mem_cons, List.not_mem_nil, or_false] at hk
              rcases hk with rfl | rfl | rfl | rfl | rfl
              · obtain ⟨s, hs, _⟩ := Option.bind_eq_some.mp hc1
                exact check_line_some hs
              · obtain ⟨s, hs, _⟩ := Option.bind_eq_some.mp hc2
                exact check_line_some hs
              · obtain ⟨s, hs, _⟩ := Option.bind_eq_some.mp hc3
                exact check_line_some hs
              · obtain ⟨s, hs, _⟩ := Option.bind_eq_some.mp hc4
                exact check_line_some hs
              · obtain ⟨s, hs, _⟩ := Option.bind_eq_some.mp hc5
                exact check_line_some hs
  · intro c h1 h2 h3 h4 h5
    obtain ⟨nc, ms, cn, ee, fl⟩ := c
    simp only at h1 h2 h3 h4 h5
    rw [toTextSwapFirst_eq ⟨nc, ms, cn, ee, fl⟩ h2 h3]
    simp only
    have hfull_digits : (if fl then ['1'] else ['0']).all Char.isDigit = true := by
      cases fl <;> decide
    have hlines :
        rustLines ((memSizeKey ++ natToHex ms.toNat) ++ '\n' ::
          ((coresKey ++ natToDec nc) ++ '\n' ::
            ((chkNumKey ++ natToDec cn) ++ '\n' ::
              ((entryKey ++ natToHex ee) ++ '\n' ::
                (fullKey ++ (if fl then ['1'] else ['0'])))))) =
        [memSizeKey ++ natToHex ms.toNat, coresKey ++ natToDec nc,
          chkNumKey ++ natToDec cn, entryKey ++ natToHex ee,
          fullKey ++ (if fl then ['1'] else ['0'])] := by
      apply rustLines_five
      · exact List.forall_mem_append.mpr ⟨by decide, hex_no_nl (natToHex_all_hex ms.toNat)⟩
      · exact List.forall_mem_append.mpr ⟨by decide, hex_no_cr (natToHex_all_hex ms.toNat)⟩
      · exact List.forall_mem_append.mpr ⟨by decide, digits_no_nl (natToDec_all_digits nc)⟩
      · exact List.forall_mem_append.mpr ⟨by decide, digits_no_cr (natToDec_all_digits nc)⟩
      · exact List.forall_mem_append.mpr ⟨by decide, digits_no_nl (natToDec_all_digits cn)⟩
      · exact List.forall_mem_append.mpr ⟨by decide, digits_no_cr (natToDec_all_digits cn)⟩
      · exact List.forall_mem_append.mpr ⟨by decide, hex_no_nl (natToHex_all_hex ee)⟩
      · exact List.forall_mem_append.mpr ⟨by decide, hex_no_cr (natToHex_all_hex ee)⟩
      · exact List.forall_mem_append.mpr ⟨by decide, digits_no_nl hfull_digits⟩
      · simp [fullKey]
    have e1 : check_line [memSizeKey ++ natToHex ms.toNat, coresKey ++ natToDec nc,
        chkNumKey ++ natToDec cn, entryKey ++ natToHex ee,
        fullKey ++ (if fl then ['1'] else ['0'])] coresKey = some (natToDec nc) := by
      rw [check_line_miss _ (isPrefixOf_append_false_of_mismatch _ _ _ (by decide) (by decide)),
        check_line_hit _ (isPrefixOf_append_self _ _), List.drop_left]
    have e2 : check_line [memSizeKey ++ natToHex ms.toNat, coresKey ++ natToDec nc,
        chkNumKey ++ natToDec cn, entryKey ++ natToHex ee,
        fullKey ++ (if fl then ['1'] else ['0'])] memSizeKey = some (natToHex ms.toNat) := by
      rw [check_line_hit _ (isPrefixOf_append_self _ _), List.drop_left]
    have e3 : check_line [memSizeKey ++ natToHex ms.toNat, coresKey ++ natToDec nc,
        chkNumKey ++ natToDec cn, entryKey ++ natToHex ee,
        fullKey ++ (if fl then ['1'] else ['0'])] chkNumKey = some (natToDec cn) := by
      rw [check_line_miss _ (isPrefixOf_append_false_of_mismatch _ _ _ (by decide) (by decide)),
        check_line_miss _ (isPrefixOf_append_false_of_mismatch _ _ _ (by decide) (by decide)),
        check_line_hit _ (isPrefixOf_append_self _ _), List.drop_left]
    have e4 : check_line [memSizeKey ++ natToHex ms.toNat, coresKey ++ natToDec nc,
        chkNumKey ++ natToDec cn, entryKey ++ natToHex ee,
        fullKey ++ (if fl then ['1'] else ['0'])] entryKey = some (natToHex ee) := by
      rw [check_line_miss _ (isPrefixOf_append_false_of_mismatch _ _ _ (by decide) (by decide)),
        check_line_miss _ (isPrefixOf_append_false_of_mismatch _ _ _ (by decide) (by decide)),
        check_line_miss _ (isPrefixOf_append_false_of_mismatch _ _ _ (by decide) (by decide)),
        check_line_hit _ (isPrefixOf_append_self _ _), List.drop_left]
    have e5 : check_line [memSizeKey ++ natToHex ms.toNat, coresKey ++ natToDec nc,
        chkNumKey ++ natToDec cn, entryKey ++ natToHex ee,
        fullKey ++ (if fl then ['1'] else ['0'])] fullKey
          = some (if fl then ['1'] else ['0']) := by
      rw [check_line_miss _ (isPrefixOf_append_false_of_mismatch _ _ _ (by decide) (by decide)),
        check_line_miss _ (isPrefixOf_append_false_of_mismatch _ _ _ (by decide) (by decide)),
        check_line_miss _ (isPrefixOf_append_false_of_mismatch _ _ _ (by decide) (by decide)),
        check_line_miss _ (isPrefixOf_append_false_of_mismatch _ _ _ (by decide) (by decide)),
        check_line_hit _ (isPrefixOf_append_self _ _), List.drop_left]
    have p1 : parseU32 (natToDec nc) = some nc := by
      rw [parseU32_of_digits (natToDec_all_digits nc), parseNatCore_natToDec h1]
    have p2 : parseIsizeHex (natToHex ms.toNat) = some ms := by
      rw [parseIsizeHex_of_hex (natToHex_all_hex ms.toNat),
        parseHexCore_natToHex (by omega)]
      simp [Int.toNat_of_nonneg h2]
    have p3 : parseU32 (natToDec cn) = some cn := by
      rw [parseU32_of_digits (natToDec_all_digits cn), parseNatCore_natToDec h4]
    have p4 : parseU64Hex (natToHex ee) = some ee := by
      rw [parseU64Hex_of_hex (natToHex_all_hex ee), parseHexCore_natToHex h5]
    have p5 : parseU32 (if fl then ['1'] else ['0']) = some (if fl then 1 else 0) := by
      cases fl <;> decide
    simp only [CheckpointConfig.fromData, hlines, e1, e2, e3, e4, e5, p1, p2, p3, p4, p5,
      Option.bind_some, Option.some_bind]
    cases fl <;> rfl

/-- Claim C3 (amended), witness: the swapped-order serialization of a
concrete configuration parses back to that configuration. -/
theorem claim_C3_amended_witness :
    CheckpointConfig.fromData (CheckpointConfig.toTextSwapFirst ⟨2, 512, 0, 2097152, true⟩) =
      .ok ⟨2, 512, 0, 2097152, true⟩ :=
  claim_C3_amended.2 ⟨2, 512, 0, 2097152, true⟩ (by decide) (by decide) (by decide)
    (by decide) (by decide)

/-! ### Guest memory layout (`VirtualMachine::new`, src/hermit/uhyve/vm.rs) -/

def KVM_32BIT_MAX_MEM_SIZE : Nat := 1 <<< 32
def KVM_32BIT_GAP_SIZE : Nat := 768 <<< 20
def KVM_32BIT_GAP_START : Nat := KVM_32BIT_MAX_MEM_SIZE - KVM_32BIT_GAP_SIZE

/-- The host mapping `VirtualMachine::new` creates for a requested guest
memory size: the total length requested from `mmap` and, when the gap
branch is taken, the `(offset, length)` arguments passed to `mprotect`
(whose return value the source discards). -/
structure GuestMemLayout where
  totalBytes : Nat
  protNone : Option (Nat × Nat)
  deriving DecidableEq, Repr

/-- The memory set-up branch of `VirtualMachine::new`: below the gap
start a single anonymous mapping of `size` bytes; otherwise an anonymous
mapping of `size + KVM_32BIT_GAP_START` bytes — a `usize` sum, recorded
with its release-build wrap modulo `2 ^ 64` — whose `mprotect` call
passes offset `KVM_32BIT_GAP_START` and length `KVM_32BIT_GAP_START`. -/
def vmNewMemLayout (size : Nat) : GuestMemLayout :=
  if size < KVM_32BIT_GAP_START then
    { totalBytes := size, protNone := none }
  else
    { totalBytes := (size + KVM_32BIT_GAP_START) % 2 ^ 64,
      protNone := some (KVM_32BIT_GAP_START, KVM_32BIT_GAP_START) }

/-- Claim C2, counterexample: at `size = 3.25 GiB` exactly, the code
takes the gap branch (`size < KVM_32BIT_GAP_START` is strict), not the
claimed single mapping; and for any larger size the `PROT_NONE` length
passed to `mprotect` is `KVM_32BIT_GAP_START` (3.25 GiB), covering
`[3.25 GiB, 6.5 GiB)` rather than the claimed 768 MiB gap
`[3.25 GiB, 4 GiB)`. -/
theorem claim_C2_counterexample :
    vmNewMemLayout 3489660928 ≠ { totalBytes := 3489660928, protNone := none } ∧
    vmNewMemLayout 3489660928 =
      { totalBytes := 6979321856, protNone := some (3489660928, 3489660928) } ∧
    (vmNewMemLayout 4294967296).protNone ≠ some (3489660928, 805306368) ∧
    (vmNewMemLayout 4294967296).protNone = some (3489660928, 3489660928) := by
  refine ⟨by decide, by decide, by decide, by decide⟩

/-- Claim C2 (amended): for a requested guest memory size strictly below
3.25 GiB (= 3489660928 bytes), `VirtualMachine::new` creates a single
anonymous mapping of exactly `size` bytes; for any size of 3.25 GiB or
more whose `usize` sum `size + 3.25 GiB` does not overflow, it creates a
mapping of `size + 3.25 GiB` bytes whose `mprotect` call covers the range
starting at 3.25 GiB of length 3.25 GiB (i.e. `[3.25 GiB, 6.5 GiB)`). -/
theorem claim_C2_amended (size : Nat) :
    (size < 3489660928 → vmNewMemLayout size = { totalBytes := size, protNone := none }) ∧
    (3489660928 ≤ size → size + 3489660928 < 2 ^ 64 →
      vmNewMemLayout size = { totalBytes := size + 3489660928,
                              protNone := some (3489660928, 3489660928) }) := by
  have hg : KVM_32BIT_GAP_START = 3489660928 := by decide
  constructor
  · intro h
    unfold vmNewMemLayout
    rw [if_pos (by omega)]
  · intro h hov
    unfold vmNewMemLayout
    rw [hg, if_neg (by omega), Nat.mod_eq_of_lt (by omega)]

/-- Claim C2 (amended), witness: both branches at concrete sizes. -/
theorem claim_C2_amended_witness :
    vmNewMemLayout 1073741824 = { totalBytes := 1073741824, protNone := none } ∧
    vmNewMemLayout 4294967296 = { totalBytes := 7784628224,
                                  protNone := some (3489660928, 3489660928) } :=
  ⟨(claim_C2_amended 1073741824).1 (by decide),
   (claim_C2_amended 4294967296).2 (by decide) (by decide)⟩

/-! ### Checkpoint creation and handling (src/hermit/uhyve/vm.rs) -/

/-- The slice of `VirtualMachine` state read and written by checkpoint
handling. -/
structure VMState where
  checkpoint_num : Nat
  interrupt : Bool
  elf_entry : Option Nat
  num_cpus : Nat
  mem_len : Nat
  full_checkpoint : Bool
  deriving DecidableEq, Repr

/-- Outcomes of the host-side effects performed by `create_checkpoint`,
in program order: directory presence/creation, the per-vCPU state
snapshots, creation of the memory dump file, the get-clock ioctl, the
clock header write, the page-table scan with its page writes, and the
final `chk_config.txt`/core-file save. -/
structure CheckpointHost where
  dirOk : Bool
  saveCpuOk : Bool
  memFileOk : Bool
  getClockOk : Bool
  writeClockOk : Bool
  scanOk : Bool
  chkSaveOk : Bool
  deriving DecidableEq, Repr

/-- `VirtualMachine::get_checkpoint_config`: fails with
`KernelNotLoaded` when no ELF entry point is recorded. -/
def get_checkpoint_config (vm : VMState) : Except Error CheckpointConfig :=
  match vm.elf_entry with
  | none => .error .KernelNotLoaded
  | some entry =>
    .ok { num_cpus := vm.num_cpus, mem_size := (vm.mem_len : Int),
          checkpoint_number := vm.checkpoint_num, elf_entry := entry,
          full := vm.full_checkpoint }

/-- `VirtualMachine::create_checkpoint`: every fallible step propagates
its error with `?`; `self.checkpoint_num += 1` is the last statement and
runs only after all steps succeeded.  `checkpoint_num` is a `u32`, so
the increment is recorded with its release-build wrap modulo `2 ^ 32`. -/
def create_checkpoint (vm : VMState) (h : CheckpointHost) : Except Error Unit × VMState :=
  if !h.dirOk then (.error .WriteCheckpoint, vm)
  else
    match get_checkpoint_config vm with
    | .error e => (.error e, vm)
    | .ok _ =>
      if !h.saveCpuOk then (.error .IOCTL, vm)
      else if !h.memFileOk then (.error .WriteCheckpoint, vm)
      else if !h.getClockOk then (.error .IOCTL, vm)
      else if !h.writeClockOk then (.error .WriteCheckpoint, vm)
      else if !h.scanOk then (.error .WriteCheckpoint, vm)
      else if !h.chkSaveOk then (.error .WriteCheckpoint, vm)
      else (.ok (), { vm with checkpoint_num := (vm.checkpoint_num + 1) % 2 ^ 32 })

/-- `VirtualMachine::handle_checkpoint`: sets `interrupt := true`, sends
SIGUSR2 to all vCPU threads and waits on the barrier (host effects with
no state content here), runs `create_checkpoint` and only logs its
outcome, then clears `interrupt` and waits on the barrier again. -/
def handle_checkpoint (vm : VMState) (h : CheckpointHost) : VMState :=
  let vm1 := { vm with interrupt := true }
  let r := create_checkpoint vm1 h
  { r.2 with interrupt := false }

theorem create_checkpoint_cases (vm : VMState) (h : CheckpointHost) :
    create_checkpoint vm h =
      (.ok (), { vm with checkpoint_num := (vm.checkpoint_num + 1) % 2 ^ 32 }) ∨
    ∃ e, create_checkpoint vm h = (.error e, vm) := by
  unfold create_checkpoint
  split
  · exact Or.inr ⟨_, rfl⟩
  split
  · exact Or.inr ⟨_, rfl⟩
  split
  · exact Or.inr ⟨_, rfl⟩
  split
  · exact Or.inr ⟨_, rfl⟩
  split
  · exact Or.inr ⟨_, rfl⟩
  split
  · exact Or.inr ⟨_, rfl⟩
  split
  · exact Or.inr ⟨_, rfl⟩
  split
  · exact Or.inr ⟨_, rfl⟩
  exact Or.inl rfl

/-- Claim C8, counterexample: when `create_checkpoint` fails inside the
freeze window (here: no kernel is loaded, so building the checkpoint
configuration fails with `KernelNotLoaded`), `handle_checkpoint` returns
with `checkpoint_num` unchanged, not increased by 1.  `interrupt` is
still cleared. -/
theorem claim_C8_counterexample :
    (handle_checkpoint ⟨0, false, none, 1, 4096, false⟩
        ⟨true, true, true, true, true, true, true⟩).checkpoint_num = 0 ∧
    (handle_checkpoint ⟨0, false, none, 1, 4096, false⟩
        ⟨true, true, true, true, true, true, true⟩).checkpoint_num ≠ 0 + 1 ∧
    (create_checkpoint ⟨0, true, none, 1, 4096, false⟩
        ⟨true, true, true, true, true, true, true⟩).1 = .error .KernelNotLoaded := by
  refine ⟨by decide, by decide, by decide⟩

/-- Claim C8 (amended): when `handle_checkpoint` returns,
`control.interrupt` is false, and — for every state whose `u32` counter
is below `u32::MAX`, so the increment cannot wrap — `checkpoint_num` has
increased by exactly 1 if `create_checkpoint` succeeded inside the
freeze window but is unchanged when `create_checkpoint` returned an
error. -/
theorem claim_C8_amended (vm : VMState) (h : CheckpointHost) :
    (handle_checkpoint vm h).interrupt = false ∧
    (vm.checkpoint_num < 4294967295 →
      (create_checkpoint { vm with interrupt := true } h).1 = .ok () →
      (handle_checkpoint vm h).checkpoint_num = vm.checkpoint_num + 1) ∧
    (∀ e, (create_checkpoint { vm with interrupt := true } h).1 = .error e →
      (handle_checkpoint vm h).checkpoint_num = vm.checkpoint_num) := by
  refine ⟨rfl, ?_, ?_⟩
  · intro hb hok
    rcases create_checkpoint_cases { vm with interrupt := true } h with heq | ⟨e, heq⟩
    · simp [handle_checkpoint, heq]
      omega
    · rw [heq] at hok
      exact absurd hok (by simp)
  · intro e he
    rcases create_checkpoint_cases { vm with interrupt := true } h with heq | ⟨e0, heq⟩
    · rw [heq] at he
      exact absurd he (by simp)
    · simp [handle_checkpoint, heq]

/-- Claim C8 (amended), witness: a successful checkpoint at a concrete
state increments `checkpoint_num` from 5 to 6. -/
theorem claim_C8_amended_witness :
    (handle_checkpoint ⟨5, false, some 4194304, 2, 4096, false⟩
        ⟨true, true, true, true, true, true, true⟩).checkpoint_num = 5 + 1 :=
  (claim_C8_amended ⟨5, false, some 4194304, 2, 4096, false⟩
    ⟨true, true, true, true, true, true, true⟩).2.1 (by decide) (by decide)

/-! ### Hypercall protocol (src/hermit/uhyve/proto.rs) -/

/-- KVM exit reasons.  Modelled from the spec: the numeric constants
come from the generated KVM bindings (`kvm/header.rs`), which are not
among the extracted sources; only their distinctness matters for the
dispatch. -/
inductive ExitReason where
  | io
  | hlt
  | mmio
  | failEntry
  | internalError
  | shutdown
  | debug
  | unknownReason (code : Nat)
  deriving DecidableEq, Repr

/-- The part of the `kvm_run` page inspected by `Syscall::from_mem`: the
exit reason and, for port-I/O exits, the port number and the
guest-physical address (an `isize`) found at `data_offset` inside the
run page. -/
structure KvmRun where
  exit_reason : ExitReason
  port : Nat
  dataAddr : Int
  deriving DecidableEq, Repr

/-- Decoded hypercall: each port-I/O request carries the guest offset of
its argument block; any non-port-I/O exit is `Other`. -/
inductive Syscall where
  | UART (b : Nat)
  | Write (ptr : Int)
  | Open (ptr : Int)
  | Close (ptr : Int)
  | Read (ptr : Int)
  | LSeek (ptr : Int)
  | Exit (ptr : Int)
  | NetInfo (ptr : Int)
  | NetWrite (ptr : Int)
  | NetRead (ptr : Int)
  | NetStat (ptr : Int)
  | CmdSize (ptr : Int)
  | CmdVal (ptr : Int)
  | Other (run : KvmRun)
  deriving DecidableEq, Repr

/-- Result of a single serviced hypercall (`proto::Return`). -/
inductive Return where
  | Continue
  | Interrupt
  | Exit (code : Int)
  deriving DecidableEq, Repr

/-- `Syscall::from_mem`: any exit other than `KVM_EXIT_IO` decodes to
`Other`; a port-I/O exit decodes by port, an unknown port being a
`Protocol` error.  (Format arguments of the error string are elided.) -/
def from_mem (run : KvmRun) : Except Error Syscall :=
  if run.exit_reason ≠ .io then .ok (.Other run)
  else
    match run.port with
    | 0x800 => .ok (.UART ((run.dataAddr % 256).toNat))
    | 0x400 => .ok (.Write run.dataAddr)
    | 0x500 => .ok (.Read run.dataAddr)
    | 0x480 => .ok (.Close run.dataAddr)
    | 0x440 => .ok (.Open run.dataAddr)
    | 0x580 => .ok (.LSeek run.dataAddr)
    | 0x540 => .ok (.Exit run.dataAddr)
    | 0x600 => .ok (.NetInfo run.dataAddr)
    | 0x640 => .ok (.NetWrite run.dataAddr)
    | 0x680 => .ok (.NetRead run.dataAddr)
    | 0x700 => .ok (.NetStat run.dataAddr)
    | 0x740 => .ok (.CmdSize run.dataAddr)
    | 0x780 => .ok (.CmdVal run.dataAddr)
    | _ => .error (.Protocol "KVM: unhandled KVM_EXIT_IO")

/-- The exact diagnostic string of the `KVM_EXIT_HLT` arm of
`Syscall::run`. -/
def hltExitMsg : String :=
  "Guest has halted the CPU, this is considered as a normal exit."

/-- The `Syscall::Other` arm of `Syscall::run`: every non-port-I/O exit
reason — including `KVM_EXIT_HLT` — produces an `Err`; `KVM_EXIT_DEBUG`
maps to `KVMDebug` and every other reason to `Protocol` with a
diagnostic string (format arguments of the non-HLT messages elided). -/
def syscallRunOther (run : KvmRun) : Except Error Return :=
  match run.exit_reason with
  | .hlt => .error (.Protocol hltExitMsg)
  | .mmio => .error (.Protocol "KVM: unhandled KVM_EXIT_MMIO")
  | .failEntry => .error (.Protocol "KVM: entry failure")
  | .internalError => .error (.Protocol "KVM: internal error exit")
  | .shutdown => .error (.Protocol "KVM: receive shutdown command")
  | .debug => .error .KVMDebug
  | _ => .error (.Protocol "KVM: unhandled exit")

/-- Per-vCPU exit classification of `run_vcpu` (`vcpu::ExitCode`). -/
inductive ExitCode where
  | Cause (cause : Except Error Int)
  | Innocent
  deriving DecidableEq, Repr

/-- One iteration of the `run_vcpu` loop after `single_run` produced
`res`: `Exit(code)` stores `running := false` and returns
`Cause(Ok(code))`; an error stores `running := false` and returns
`Cause(Err(e))`; `Continue` and `Interrupt` stay in the loop (`none`). -/
def runVcpuStep (res : Except Error Return) : Option ExitCode :=
  match res with
  | .ok (.Exit code) => some (.Cause (.ok code))
  | .ok .Continue => none
  | .ok .Interrupt => none
  | .error e => some (.Cause (.error e))

/-- Claim C1: behaviour of the run loop on a `KVM_EXIT_HLT` exit.  The
decoder produces `Syscall::Other`, whose `run` arm returns
`Err(Protocol(...))` — with a message calling the halt "a normal exit" —
so the loop returns `ExitCode::Cause(Err(Protocol(...)))`, not the
claimed `Cause(Ok(0))`. -/
theorem claim_C1_hlt_is_error :
    from_mem { exit_reason := .hlt, port := 0, dataAddr := 0 } =
      .ok (.Other { exit_reason := .hlt, port := 0, dataAddr := 0 }) ∧
    syscallRunOther { exit_reason := .hlt, port := 0, dataAddr := 0 } =
      .error (.Protocol hltExitMsg) ∧
    runVcpuStep (syscallRunOther { exit_reason := .hlt, port := 0, dataAddr := 0 }) =
      some (.Cause (.error (.Protocol hltExitMsg))) ∧
    runVcpuStep (syscallRunOther { exit_reason := .hlt, port := 0, dataAddr := 0 }) ≠
      some (.Cause (.ok 0)) := by
  refine ⟨rfl, rfl, rfl, by decide⟩

/-- The `Syscall::Open` arm of `Syscall::run`, with the host modelled by
two oracles: `canon` is `fs::canonicalize` (`none` on failure) and
`hostOpen` is `libc::open`.  Returns the value stored into the request's
`ret` field, paired with whether `open` was invoked. -/
def syscallRunOpen (canon : List Char → Option (List Char))
    (hostOpen : List Char → Int → Int → Int)
    (name : List Char) (flags mode : Int) : Int × Bool :=
  if ((canon name).map (fun p => p == "/dev/kvm".toList)).getD false
  then (-1, false) else (hostOpen name flags mode, true)

/-- Claim C7: the Open hypercall refuses `/dev/kvm` — if the
canonicalized name is `/dev/kvm` the handler stores `ret = -1` without
opening; for any other (or uncanonicalizable) name it stores the result
of `host_open(name, flags, mode)`, so an ordinary file whose host open
returns a non-negative fd yields a non-negative `ret`. -/
theorem claim_C7 (canon : List Char → Option (List Char))
    (hostOpen : List Char → Int → Int → Int) (name : List Char) (flags mode : Int) :
    (canon name = some ("/dev/kvm".toList) →
      syscallRunOpen canon hostOpen name flags mode = (-1, false)) ∧
    ((∀ p, canon name = some p → p ≠ "/dev/kvm".toList) →
      syscallRunOpen canon hostOpen name flags mode = (hostOpen name flags mode, true)) ∧
    (0 ≤ hostOpen ("/tmp/x".toList) flags mode →
      (∀ p, canon ("/tmp/x".toList) = some p → p ≠ "/dev/kvm".toList) →
      0 ≤ (syscallRunOpen canon hostOpen ("/tmp/x".toList) flags mode).1) := by
  refine ⟨?_, ?_, ?_⟩
  · intro h
    unfold syscallRunOpen
    rw [h]
    simp
  · intro h
    unfold syscallRunOpen
    cases hc : canon name with
    | none => rfl
    | some p =>
      have hp : (p == "/dev/kvm".toList) = false := beq_eq_false_iff_ne.mpr (h p hc)
      simp only [Option.map_some', Option.getD_some, hp]
      rfl
  · intro hfd h
    unfold syscallRunOpen
    cases hc : canon ("/tmp/x".toList) with
    | none => exact hfd
    | some p =>
      have hp : (p == "/dev/kvm".toList) = false := beq_eq_false_iff_ne.mpr (h p hc)
      simp only [Option.map_some', Option.getD_some, hp, if_false]
      exact hfd

/-- Claim C7, witness: both branches with concrete host oracles. -/
theorem claim_C7_witness :
    syscallRunOpen (fun n => some n) (fun _ _ _ => 3) ("/dev/kvm".toList) 0 0 = (-1, false) ∧
    syscallRunOpen (fun _ => none) (fun _ _ _ => 3) ("/tmp/x".toList) 0 0 = (3, true) :=
  ⟨(claim_C7 (fun n => some n) (fun _ _ _ => 3) ("/dev/kvm".toList) 0 0).1 rfl,
   (claim_C7 (fun _ => none) (fun _ _ _ => 3) ("/tmp/x".toList) 0 0).2.1
      (fun p hp => absurd hp (by simp))⟩

/-- `"KEY=VAL"` as built by `format!("{}={}", val, key)` for one
environment pair. -/
def envEntryChars (p : List Char × List Char) : List Char := p.1 ++ '=' :: p.2

/-- `Syscall::CmdSize`, `argc` field: `env::args().count() - 1`. -/
def cmdSizeArgc (args : List (List Char)) : Nat := args.length - 1

/-- `Syscall::CmdSize`, `argsz` entries: for each argument after the
program name, its length plus 1 (the NUL terminator). -/
def cmdSizeArgsz (args : List (List Char)) : List Nat :=
  (args.drop 1).map (fun a => a.length + 1)

/-- `Syscall::CmdSize`, `envc` field: `env::vars().count()`. -/
def cmdSizeEnvc (env : List (List Char × List Char)) : Nat := env.length

/-- `Syscall::CmdSize`, `envsz` entries: the length of `"KEY=VAL"`,
without any NUL terminator. -/
def cmdSizeEnvsz (env : List (List Char × List Char)) : List Nat :=
  env.map (fun p => (envEntryChars p).length)

/-- Bytes stored by one `strcpy` of a NUL-terminated C string: the
string length plus the terminating NUL byte. -/
def strcpyBytes (s : List Char) : Nat := s.length + 1

/-- `Syscall::CmdVal`, argv side: each argument after the program name
is copied with `strcpy` of its `CString`. -/
def cmdValArgvBytes (args : List (List Char)) : List Nat :=
  (args.drop 1).map (fun a => strcpyBytes a)

/-- `Syscall::CmdVal`, envp side: each `"KEY=VAL"` entry is copied with
`strcpy` of its `CString`. -/
def cmdValEnvpBytes (env : List (List Char × List Char)) : List Nat :=
  env.map (fun p => strcpyBytes (envEntryChars p))

/-- Claim C10: `CmdSize` reports `len+1` (with NUL) for every argument
but `len` (without NUL) for every environment entry, while `CmdVal`
writes `len+1` bytes for both — so each environment copy writes exactly
one byte more than the size `CmdSize` reported for that entry, whereas
the argv sizes and writes agree. -/
theorem claim_C10 (args : List (List Char)) (env : List (List Char × List Char)) :
    (∀ i, i < (args.drop 1).length →
      (cmdSizeArgsz args).getD i 0 = ((args.drop 1).getD i []).length + 1) ∧
    (∀ i, i < env.length →
      (cmdSizeEnvsz env).getD i 0 = (envEntryChars (env.getD i ([], []))).length) ∧
    cmdValArgvBytes args = cmdSizeArgsz args ∧
    cmdValEnvpBytes env = (cmdSizeEnvsz env).map (fun s => s + 1) ∧
    (∀ i, i < env.length →
      (cmdValEnvpBytes env).getD i 0 = (cmdSizeEnvsz env).getD i 0 + 1) := by
  refine ⟨?_, ?_, rfl, ?_, ?_⟩
  · intro i h
    unfold cmdSizeArgsz
    rw [List.getD_eq_getElem _ _ (by simpa using h), List.getD_eq_getElem _ _ h,
      List.getElem_map]
  · intro i h
    unfold cmdSizeEnvsz
    rw [List.getD_eq_getElem _ _ (by simpa using h), List.getD_eq_getElem _ _ h,
      List.getElem_map]
  · unfold cmdValEnvpBytes cmdSizeEnvsz strcpyBytes
    rw [List.map_map]
    rfl
  · intro i h
    unfold cmdValEnvpBytes cmdSizeEnvsz strcpyBytes
    rw [List.getD_eq_getElem _ _ (by simpa using h), List.getD_eq_getElem _ _ (by simpa using h),
      List.getElem_map, List.getElem_map]

/-- Claim C10, witness: a concrete argv/environment instance. -/
theorem claim_C10_witness :
    (cmdSizeArgsz [['p'], ['a', 'b']]).getD 0 0 = 3 ∧
    (cmdSizeEnvsz [(['H'], ['x', 'y'])]).getD 0 0 = 4 ∧
    (cmdValEnvpBytes [(['H'], ['x', 'y'])]).getD 0 0 = 5 := by
  refine ⟨?_, ?_, ?_⟩
  · have := (claim_C10 [['p'], ['a', 'b']] []).1 0 (by decide)
    simpa using this
  · have := (claim_C10 [] [(['H'], ['x', 'y'])]).2.1 0 (by decide)
    simpa using this
  · have h := (claim_C10 [] [(['H'], ['x', 'y'])]).2.2.2.2 0 (by decide)
    rw [h]
    decide

/-! ### MAC address handling (`NetworkInterface::set_mac`,
src/hermit/uhyve/network.rs) -/

/-- The validation loop of `set_mac`: `i` counts hex digits, `s` counts
colons and is reset to `-1` by any other character; at a colon, if
`i / 2 != s` (after incrementing `s`) the loop breaks. -/
def macScan : List Char → Nat → Int → Nat × Int
  | [], i, s => (i, s)
  | m :: rest, i, s =>
    if isHexDigitRust m then macScan rest (i + 1) s
    else if m = ':' then
      if ((i / 2 : Nat) : Int) ≠ s + 1 then (i, s + 1) else macScan rest i (s + 1)
    else macScan rest i (-1)

/-- A supplied MAC string is used verbatim iff the scan ends with
`i == 12 && s == 5`. -/
def macValid (mac : List Char) : Bool :=
  let r := macScan mac 0 0
  r.1 == 12 && r.2 == 5

/-- The MAC `set_mac` stores: either the supplied string verbatim or six
generated bytes. -/
inductive MacChoice where
  | supplied (mac : List Char)
  | generated (b0 b1 b2 b3 b4 b5 : Nat)
  deriving DecidableEq, Repr

/-- First generated byte: a random `u8` masked with `&= 0xfe` then
`|= 0x02`. -/
def genByte0 (r : Nat) : Nat := ((r % 256) &&& 0xfe) ||| 0x02

/-- The random fallback of `set_mac`: `rng.gen::<[u8; 6]>()` with the
first byte masked to be unicast and locally administered. -/
def genMac (rng : Fin 6 → Nat) : MacChoice :=
  .generated (genByte0 (rng 0)) (rng 1 % 256) (rng 2 % 256) (rng 3 % 256)
    (rng 4 % 256) (rng 5 % 256)

/-- `NetworkInterface::set_mac`: a supplied string passing the
12-hex-digit/5-colon validation is stored verbatim; otherwise (invalid
or absent) a random MAC is generated.  (The 18-byte NUL-terminated array
representation is elided.) -/
def set_mac (mac : Option (List Char)) (rng : Fin 6 → Nat) : MacChoice :=
  match mac with
  | some mac_addr => if macValid mac_addr then .supplied mac_addr else genMac rng
  | none => genMac rng

set_option maxRecDepth 8192 in
/-- Claim C9: every generated MAC has first byte with bit 0 clear
(unicast) and bit 1 set (locally administered), hence in
`{0x02, 0x06, …, 0xFE}`; an unset MAC and the 5-group string
`"aa:bb:cc:dd:ee"` both fall back to the generator, while
`"aa:bb:cc:dd:ee:ff"` is accepted verbatim. -/
theorem claim_C9 (rng : Fin 6 → Nat) (r : Nat) :
    genByte0 r &&& 0x01 = 0 ∧
    genByte0 r &&& 0x02 = 2 ∧
    2 ≤ genByte0 r ∧ genByte0 r ≤ 0xfe ∧ genByte0 r % 4 = 2 ∧
    set_mac none rng = genMac rng ∧
    set_mac (some ("aa:bb:cc:dd:ee:ff".toList)) rng =
      .supplied ("aa:bb:cc:dd:ee:ff".toList) ∧
    set_mac (some ("aa:bb:cc:dd:ee".toList)) rng = genMac rng := by
  have hb : ∀ v, v < 256 → (v &&& 0xfe ||| 0x02) &&& 0x01 = 0 ∧
      (v &&& 0xfe ||| 0x02) &&& 0x02 = 2 ∧
      2 ≤ (v &&& 0xfe ||| 0x02) ∧ (v &&& 0xfe ||| 0x02) ≤ 0xfe ∧
      (v &&& 0xfe ||| 0x02) % 4 = 2 := by decide
  have hr := hb (r % 256) (Nat.mod_lt _ (by omega))
  refine ⟨hr.1, hr.2.1, hr.2.2.1, hr.2.2.2.1, hr.2.2.2.2, rfl, ?_, ?_⟩
  · show (if macValid ("aa:bb:cc:dd:ee:ff".toList) then
        MacChoice.supplied ("aa:bb:cc:dd:ee:ff".toList) else genMac rng) =
      MacChoice.supplied ("aa:bb:cc:dd:ee:ff".toList)
    split
    · rfl
    · rename_i hcontra
      exact absurd (by decide : macValid ("aa:bb:cc:dd:ee:ff".toList) = true) hcontra
  · show (if macValid ("aa:bb:cc:dd:ee".toList) then
        MacChoice.supplied ("aa:bb:cc:dd:ee".toList) else genMac rng) = genMac rng
    split
    · rename_i hcontra
      have hfalse : macValid ("aa:bb:cc:dd:ee".toList) = false := by decide
      rw [hfalse] at hcontra
      cases hcontra
    · rfl

/-! ### Boot page tables and long-mode control state
(`VirtualMachine::setup_system_page_tables` / `setup_system_64bit`,
src/hermit/uhyve/vm.rs) -/

def GUEST_SIZE : Nat := 0x20000000
def BOOT_PML4 : Nat := 0x10000
def BOOT_PDPTE : Nat := 0x11000
def BOOT_PDE : Nat := 0x12000

def X86_CR0_PE : Nat := 1 <<< 0
def X86_CR0_PG : Nat := 1 <<< 31
def X86_CR4_PAE : Nat := 1 <<< 5
def EFER_LME : Nat := 1 <<< 8
def EFER_LMA : Nat := 1 <<< 10

/-- `PageTableEntryFlags::PRESENT`. Modelled from the spec: the paging
module (`paging.rs`) is not among the extracted sources; §3 of the spec
gives the 512-entry tables, the flag accessors and the `address()`
masking, with the standard x86-64 bit positions. -/
def PRESENT : Nat := 1
/-- `PageTableEntryFlags::WRITABLE` (modelled from the spec, see
`PRESENT`). -/
def WRITABLE : Nat := 2
/-- `PageTableEntryFlags::HUGE_PAGE` (modelled from the spec, see
`PRESENT`). -/
def HUGE_PAGE : Nat := 0x80

/-- `LargePageSize::SIZE = 2 MiB` (modelled from the spec, see
`PRESENT`). -/
def LARGE_PAGE_SIZE : Nat := 0x200000

/-- `PageTableEntry::set(addr, flags)`: the entry is the 64-bit word
`addr | flags` (modelled from the spec, see `PRESENT`). -/
def entrySet (addr flags : Nat) : Nat := addr ||| flags

/-- `PageTableEntry::address()`: masks off the flag bits, keeping the
physical-frame bits (modelled from the spec, see `PRESENT`). -/
def entryAddress (e : Nat) : Nat := e &&& 0x000FFFFFFFFFF000

/-- A 512-entry page table as a map from entry index to its 64-bit
word. -/
def PageTable : Type := Nat → Nat

def tableUpdate (t : PageTable) (i : Nat) (v : Nat) : PageTable :=
  fun j => if j = i then v else t j

/-- The three boot tables living at `BOOT_PML4` / `BOOT_PDPTE` /
`BOOT_PDE` in guest memory. -/
structure BootPageTables where
  pml4 : PageTable
  pdpte : PageTable
  pde : PageTable

/-- The segment-free part of `kvm_sregs` touched by the two set-up
functions. -/
structure BootSregs where
  cr0 : Nat
  cr3 : Nat
  cr4 : Nat
  efer : Nat
  deriving DecidableEq, Repr

/-- `VirtualMachine::setup_system_page_tables`: zeroes the three boot
tables, links `pml4[0] → BOOT_PDPTE` and `pdpte[0] → BOOT_PDE`, then —
exactly as the source does — overwrites `pdpte.entries[i]` (not the PDE)
for every `i < GUEST_SIZE / LargePageSize::SIZE` with the identity
2 MiB large-page mapping, and finally sets `cr3 := BOOT_PML4`,
`cr4 |= PAE`, `cr0 |= PG`. -/
def setup_system_page_tables (st : BootPageTables) (sregs : BootSregs) :
    BootPageTables × BootSregs :=
  let pml40 : PageTable := fun _ => 0
  let pdpte0 : PageTable := fun _ => 0
  let pde0 : PageTable := fun _ => 0
  let pml41 := tableUpdate pml40 0 (entrySet BOOT_PDPTE (PRESENT ||| WRITABLE))
  let pdpte1 := tableUpdate pdpte0 0 (entrySet BOOT_PDE (PRESENT ||| WRITABLE))
  let pdpte2 := (List.range (GUEST_SIZE / LARGE_PAGE_SIZE)).foldl
    (fun t i => tableUpdate t i
      (entrySet (i * LARGE_PAGE_SIZE) (PRESENT ||| WRITABLE ||| HUGE_PAGE))) pdpte1
  (⟨pml41, pdpte2, pde0⟩,
    { sregs with cr3 := BOOT_PML4, cr4 := sregs.cr4 ||| X86_CR4_PAE,
                 cr0 := sregs.cr0 ||| X86_CR0_PG })

/-- `VirtualMachine::setup_system_64bit`: `cr0 |= PE`, `cr4 |= PAE`,
`efer |= LME | LMA`. -/
def setup_system_64bit (sregs : BootSregs) : BootSregs :=
  { sregs with cr0 := sregs.cr0 ||| X86_CR0_PE,
               cr4 := sregs.cr4 ||| X86_CR4_PAE,
               efer := sregs.efer ||| (EFER_LME ||| EFER_LMA) }

theorem range_fold_update (f : Nat → Nat) :
    ∀ (n : Nat) (t0 : PageTable), ∀ i < n,
      ((List.range n).foldl (fun t i => tableUpdate t i (f i)) t0) i = f i := by
  intro n
  induction n with
  | zero => intro t0 i h; omega
  | succ m ih =>
    intro t0 i h
    rw [List.range_succ, List.foldl_append]
    simp only [List.foldl_cons, List.foldl_nil]
    by_cases hi : i = m
    · subst hi
      simp [tableUpdate]
    · have hlt : i < m := by omega
      show tableUpdate _ m (f m) i = f i
      unfold tableUpdate
      rw [if_neg hi]
      exact ih t0 i hlt

set_option maxRecDepth 8192 in
/-- Claim C6: after `setup_system_page_tables` and `setup_system_64bit`
(the tail of `init_sregs`, which `init_cpus` applies to every vCPU), for
every `i < GUEST_SIZE / 2 MiB` the entry `pdpte[i]` of the table at
`BOOT_PDPTE` is the word `(i * 2 MiB) | PRESENT | WRITABLE | HUGE_PAGE`
— so its address is `i * 2 MiB` and its present/writable/huge bits are
set — and the resulting sregs satisfy `cr3 = BOOT_PML4`, `cr4.PAE = 1`,
`cr0.PE = cr0.PG = 1` and `efer.LME = efer.LMA = 1`. -/
theorem claim_C6 (st : BootPageTables) (sregs : BootSregs) (i : Nat)
    (hi : i < GUEST_SIZE / LARGE_PAGE_SIZE) :
    (setup_system_page_tables st sregs).1.pdpte i =
      entrySet (i * LARGE_PAGE_SIZE) (PRESENT ||| WRITABLE ||| HUGE_PAGE) ∧
    entryAddress ((setup_system_page_tables st sregs).1.pdpte i) = i * LARGE_PAGE_SIZE ∧
    ((setup_system_page_tables st sregs).1.pdpte i).testBit 0 = true ∧
    ((setup_system_page_tables st sregs).1.pdpte i).testBit 1 = true ∧
    ((setup_system_page_tables st sregs).1.pdpte i).testBit 7 = true ∧
    (setup_system_64bit (setup_system_page_tables st sregs).2).cr3 = BOOT_PML4 ∧
    (setup_system_64bit (setup_system_page_tables st sregs).2).cr4.testBit 5 = true ∧
    (setup_system_64bit (setup_system_page_tables st sregs).2).cr0.testBit 0 = true ∧
    (setup_system_64bit (setup_system_page_tables st sregs).2).cr0.testBit 31 = true ∧
    (setup_system_64bit (setup_system_page_tables st sregs).2).efer.testBit 8 = true ∧
    (setup_system_64bit (setup_system_page_tables st sregs).2).efer.testBit 10 = true := by
  have hn : GUEST_SIZE / LARGE_PAGE_SIZE = 256 := by decide
  have hentry : (setup_system_page_tables st sregs).1.pdpte i =
      entrySet (i * LARGE_PAGE_SIZE) (PRESENT ||| WRITABLE ||| HUGE_PAGE) := by
    unfold setup_system_page_tables
    exact range_fold_update
      (fun i => entrySet (i * LARGE_PAGE_SIZE) (PRESENT ||| WRITABLE ||| HUGE_PAGE))
      (GUEST_SIZE / LARGE_PAGE_SIZE) _ i hi
  have hbits : ∀ j < 256,
      entryAddress (entrySet (j * LARGE_PAGE_SIZE) (PRESENT ||| WRITABLE ||| HUGE_PAGE)) =
        j * LARGE_PAGE_SIZE ∧
      (entrySet (j * LARGE_PAGE_SIZE) (PRESENT ||| WRITABLE ||| HUGE_PAGE)).testBit 0 = true ∧
      (entrySet (j * LARGE_PAGE_SIZE) (PRESENT ||| WRITABLE ||| HUGE_PAGE)).testBit 1 = true ∧
      (entrySet (j * LARGE_PAGE_SIZE) (PRESENT ||| WRITABLE ||| HUGE_PAGE)).testBit 7 = true := by
    decide
  have hib := hbits i (by omega)
  refine ⟨hentry, hentry ▸ hib.1, hentry ▸ hib.2.1, hentry ▸ hib.2.2.1, hentry ▸ hib.2.2.2,
    rfl, ?_, ?_, ?_, ?_, ?_⟩
  · show ((sregs.cr4 ||| X86_CR4_PAE) ||| X86_CR4_PAE).testBit 5 = true
    simp only [Nat.testBit_lor]
    rw [show X86_CR4_PAE.testBit 5 = true from by decide]
    simp
  · show ((sregs.cr0 ||| X86_CR0_PG) ||| X86_CR0_PE).testBit 0 = true
    simp only [Nat.testBit_lor]
    rw [show X86_CR0_PE.testBit 0 = true from by decide]
    simp
  · show ((sregs.cr0 ||| X86_CR0_PG) ||| X86_CR0_PE).testBit 31 = true
    simp only [Nat.testBit_lor]
    rw [show X86_CR0_PG.testBit 31 = true from by decide]
    simp
  · show (sregs.efer ||| (EFER_LME ||| EFER_LMA)).testBit 8 = true
    simp only [Nat.testBit_lor]
    rw [show EFER_LME.testBit 8 = true from by decide]
    simp
  · show (sregs.efer ||| (EFER_LME ||| EFER_LMA)).testBit 10 = true
    simp only [Nat.testBit_lor]
    rw [show EFER_LMA.testBit 10 = true from by decide]
    simp

set_option maxRecDepth 8192 in
/-- Claim C6, witness: the mapping evaluated at entry 5 with zeroed
initial state. -/
theorem claim_C6_witness :
    (setup_system_page_tables ⟨fun _ => 0, fun _ => 0, fun _ => 0⟩
        ⟨0, 0, 0, 0⟩).1.pdpte 5 =
      entrySet (5 * LARGE_PAGE_SIZE) (PRESENT ||| WRITABLE ||| HUGE_PAGE) ∧
    (setup_system_64bit (setup_system_page_tables ⟨fun _ => 0, fun _ => 0, fun _ => 0⟩
        ⟨0, 0, 0, 0⟩).2).cr3 = BOOT_PML4 :=
  ⟨(claim_C6 ⟨fun _ => 0, fun _ => 0, fun _ => 0⟩ ⟨0, 0, 0, 0⟩ 5 (by decide)).1,
   (claim_C6 ⟨fun _ => 0, fun _ => 0, fun _ => 0⟩ ⟨0, 0, 0, 0⟩ 5 (by decide)).2.2.2.2.2.1⟩

end Hermit
